import Mathlib

/-
Verification development for the hubot-ollama repository.

The JavaScript sources are shallowly embedded as Lean definitions:
JS strings are Lean `String`s, except for page bodies and snippets,
which are modelled as `List Char` so that length reasoning is
elementary; JS numbers used as times, caps and byte limits are `Nat`;
JS objects used as dictionaries are association lists; network and
model-transport calls are abstracted as oracle functions or scripted
response lists supplied as parameters.
-/

namespace HubotOllama

/-- Model of `truncate` from `src/src/ollama-utils.js` lines 8-10:
`(s.length > max ? s.slice(0, max) + '...' : s)`. The string is
modelled as a list of characters; `s.slice(0, max)` is `List.take`. -/
def truncate (s : List Char) (max : Nat) : List Char :=
  if max < s.length then s.take max ++ ['.', '.', '.'] else s

theorem truncate_length_le (s : List Char) (max : Nat) :
    (truncate s max).length ≤ max + 3 := by
  unfold truncate
  split
  · simp only [List.length_append, List.length_take, List.length_cons, List.length_nil]
    omega
  · omega

theorem truncate_of_le (s : List Char) (max : Nat) (h : s.length ≤ max) :
    truncate s max = s := by
  unfold truncate
  split
  · omega
  · rfl

/-- Outcome of a single `ollama.webFetch` network call, abstracted as an
oracle indexed by the URL: either a body (the result of the JS chain
`res.text || res.content || res.body || res.data`, possibly empty) or a
thrown error / timeout. -/
inductive FetchOut
  | ok (body : List Char)
  | err
deriving DecidableEq

/-- One element of the `urls` argument of `runWebFetchMany`: a search
result carrying a URL, a title and an optional snippet (`content`, where
the empty list models a falsy or absent snippet). -/
structure FetchEntry where
  title : String
  url : String
  content : List Char
deriving DecidableEq

/-- One element of the `results` array built by `runWebFetchMany`. -/
structure FetchRes where
  title : String
  url : String
  text : List Char
deriving DecidableEq

/-- Model of `runWebFetchMany` from the ollama-client module appended to
`src/src/tools/web-fetch-tool.js` (lines 165-195). The worker pool pulls
each index from the shared cursor exactly once, so the set of per-item
outcomes does not depend on the interleaving; the embedding processes
the entries sequentially in cursor order. On a successful fetch whose
body is empty, a non-empty snippet replaces the body; on a thrown fetch,
an entry with a snippet yields a result built from the snippet and an
entry without one is skipped (logged, not pushed). Every pushed text
goes through `truncate _ maxBytes`. -/
def runWebFetchMany (fetch : String → FetchOut) (maxBytes : Nat) :
    List FetchEntry → List FetchRes
  | [] => []
  | e :: rest =>
    match fetch e.url with
    | .ok body =>
      let body2 := if body = [] ∧ e.content ≠ [] then e.content else body
      ⟨e.title, e.url, truncate body2 maxBytes⟩ :: runWebFetchMany fetch maxBytes rest
    | .err =>
      if e.content ≠ [] then
        ⟨e.title, e.url, truncate e.content maxBytes⟩ :: runWebFetchMany fetch maxBytes rest
      else
        runWebFetchMany fetch maxBytes rest

/-- An entry is dropped from the result set exactly when its fetch
throws and it has no snippet. -/
def droppedEntry (fetch : String → FetchOut) (e : FetchEntry) : Bool :=
  (fetch e.url == FetchOut.err) && e.content.isEmpty

theorem length_runWebFetchMany (fetch : String → FetchOut) (maxBytes : Nat)
    (urls : List FetchEntry) :
    (runWebFetchMany fetch maxBytes urls).length =
      urls.length - (urls.filter (droppedEntry fetch)).length := by
  induction urls with
  | nil => rfl
  | cons e rest ih =>
    have hle := List.length_filter_le (droppedEntry fetch) rest
    rcases hf : fetch e.url with body | _
    · have hd : droppedEntry fetch e = false := by simp [droppedEntry, hf]
      simp only [runWebFetchMany, hf, List.length_cons, List.filter_cons, hd,
        Bool.false_eq_true, if_false, ih]
      omega
    · by_cases hc : e.content = []
      · have hd : droppedEntry fetch e = true := by simp [droppedEntry, hf, hc]
        have hcne : ¬ e.content ≠ [] := by simp [hc]
        simp only [runWebFetchMany, hf]
        rw [if_neg hcne]
        simp only [List.filter_cons, hd, if_true, List.length_cons, ih]
        omega
      · have hd : droppedEntry fetch e = false := by simp [droppedEntry, hf, hc]
        simp only [runWebFetchMany, hf]
        rw [if_pos hc]
        simp only [List.length_cons, List.filter_cons, hd, Bool.false_eq_true,
          if_false, ih]
        omega

theorem snippet_mem_runWebFetchMany (fetch : String → FetchOut) (maxBytes : Nat)
    (urls : List FetchEntry) (e : FetchEntry) (hmem : e ∈ urls)
    (herr : fetch e.url = FetchOut.err) (hsnip : e.content ≠ []) :
    (⟨e.title, e.url, truncate e.content maxBytes⟩ : FetchRes) ∈
      runWebFetchMany fetch maxBytes urls := by
  induction urls with
  | nil => cases hmem
  | cons a rest ih =>
    rcases List.mem_cons.mp hmem with heq | htl
    · subst heq
      simp only [runWebFetchMany, herr]
      rw [if_pos hsnip]
      exact List.mem_cons_self _ _
    · rcases hf : fetch a.url with body | _
      · simp only [runWebFetchMany, hf]
        exact List.mem_cons_of_mem _ (ih htl)
      · by_cases hc : a.content ≠ []
        · simp only [runWebFetchMany, hf]
          rw [if_pos hc]
          exact List.mem_cons_of_mem _ (ih htl)
        · simp only [runWebFetchMany, hf]
          rw [if_neg hc]
          exact ih htl

/-- C8: in `runWebFetchMany`, when an individual fetch throws, an entry
carrying a fallback snippet contributes a result built from the snippet
and the batch does not fail, while an entry without a snippet is the
only kind of entry omitted from the result set; the rest of the batch
still completes, so the result count is the number of entries minus the
number of throwing entries without a snippet. -/
theorem fetchMany_error_uses_snippet_fallback (fetch : String → FetchOut)
    (maxBytes : Nat) (urls : List FetchEntry) :
    (runWebFetchMany fetch maxBytes urls).length =
      urls.length - (urls.filter (droppedEntry fetch)).length ∧
    ∀ e ∈ urls, fetch e.url = FetchOut.err → e.content ≠ [] →
      (⟨e.title, e.url, truncate e.content maxBytes⟩ : FetchRes) ∈
        runWebFetchMany fetch maxBytes urls :=
  ⟨length_runWebFetchMany fetch maxBytes urls,
   fun e hm he hs => snippet_mem_runWebFetchMany fetch maxBytes urls e hm he hs⟩

/-- Witness for C8, following Scenario E of the spec: a batch of 5 URLs
where exactly one fetch throws and that entry carries a snippet yields
5 results, one of which carries the snippet text. -/
theorem fetchMany_error_uses_snippet_fallback_witness :
    (runWebFetchMany
        (fun u => if u = "u3" then FetchOut.err else FetchOut.ok ['x'])
        12
        [⟨"t1", "u1", []⟩, ⟨"t2", "u2", []⟩, ⟨"t3", "u3", ['s']⟩,
         ⟨"t4", "u4", []⟩, ⟨"t5", "u5", []⟩]).length = 5 ∧
    (⟨"t3", "u3", ['s']⟩ : FetchRes) ∈
      runWebFetchMany
        (fun u => if u = "u3" then FetchOut.err else FetchOut.ok ['x'])
        12
        [⟨"t1", "u1", []⟩, ⟨"t2", "u2", []⟩, ⟨"t3", "u3", ['s']⟩,
         ⟨"t4", "u4", []⟩, ⟨"t5", "u5", []⟩] := by
  have h := fetchMany_error_uses_snippet_fallback
    (fun u => if u = "u3" then FetchOut.err else FetchOut.ok ['x'])
    12
    [⟨"t1", "u1", []⟩, ⟨"t2", "u2", []⟩, ⟨"t3", "u3", ['s']⟩,
     ⟨"t4", "u4", []⟩, ⟨"t5", "u5", []⟩]
  refine ⟨?_, ?_⟩
  · rw [h.1]
    rfl
  · have hm := h.2 ⟨"t3", "u3", ['s']⟩ (by decide) (by decide) (by decide)
    simpa [truncate] using hm

/-- C9 as stated is false: `truncate` appends a three-character ellipsis
marker after slicing, so a truncated item is 3 characters longer than
`maxBytesPerItem`. Concretely, with `maxBytesPerItem = 1` and a fetched
body of 2 characters the emitted text has length 4 > 1. -/
theorem fetchMany_item_length_counterexample :
    (runWebFetchMany (fun _ => FetchOut.ok ['a', 'b']) 1
        [⟨"t", "u", []⟩]).map (fun r => r.text.length) = [4] ∧ ¬ (4 ≤ 1) := by
  exact ⟨by rfl, by decide⟩

/-- C9 amended: every result item emitted by `runWebFetchMany` has text
of length at most `maxBytesPerItem + 3` — the first `maxBytesPerItem`
characters plus a three-character ellipsis marker when truncation
occurred; untruncated items keep their full (shorter) text. -/
theorem fetchMany_item_length_le (fetch : String → FetchOut) (maxBytes : Nat)
    (urls : List FetchEntry) :
    ∀ r ∈ runWebFetchMany fetch maxBytes urls, r.text.length ≤ maxBytes + 3 := by
  induction urls with
  | nil =>
    intro r hr
    cases hr
  | cons e rest ih =>
    intro r hr
    rcases hf : fetch e.url with body | _
    · simp only [runWebFetchMany, hf] at hr
      rcases List.mem_cons.mp hr with heq | htl
      · subst heq
        exact truncate_length_le _ _
      · exact ih r htl
    · by_cases hc : e.content ≠ []
      · simp only [runWebFetchMany, hf] at hr
        rw [if_pos hc] at hr
        rcases List.mem_cons.mp hr with heq | htl
        · subst heq
          exact truncate_length_le _ _
        · exact ih r htl
      · simp only [runWebFetchMany, hf] at hr
        rw [if_neg hc] at hr
        exact ih r hr

/-- Witness for the amended C9 at a concrete input. -/
theorem fetchMany_item_length_le_witness :
    (⟨"t", "u", ['a', '.', '.', '.']⟩ : FetchRes).text.length ≤ 1 + 3 :=
  fetchMany_item_length_le (fun _ => FetchOut.ok ['a', 'b']) 1
    [⟨"t", "u", []⟩] ⟨"t", "u", ['a', '.', '.', '.']⟩ (by decide)

/-- JS `array.join(', ')` over strings. -/
def joinComma (l : List String) : String :=
  String.intercalate ", " l

/-- The value the web-fetch tool handler returns to the orchestrator:
either an error object or the standardized pages array (url, content). -/
inductive WebFetchResult
  | error (msg : String)
  | pages (ps : List (String × List Char))
deriving DecidableEq

/-- Observable outcome of one web-fetch handler call: the returned value,
the list of URLs actually handed to the network coordinator
(`runWebFetchMany`), and the invocation's fetched-URL set afterwards. -/
structure WebFetchOut where
  result : WebFetchResult
  requested : List String
  fetchedAfter : List String
deriving DecidableEq

/-- Model of the web-fetch tool `handler` from
`src/src/tools/web-fetch-tool.js` lines 20-145. `urls` is the normalized
URL list from the arguments and `fetchedSet` the per-invocation
fetched-URL array kept in the brain for the invocation context key.
The handler partitions `urls` into `alreadyFetched` (present in
`fetchedSet`) and `urlsToFetch`, fails with an explicit duplicate-URL
error naming the already-fetched URLs when `urlsToFetch` is empty, and
otherwise fetches only `urlsToFetch` (entries built as bare URL objects,
so no title and no snippet) and records every fetched page URL not yet
in the set. The status message sent to the chat user is not modelled. -/
def webFetchHandler (fetch : String → FetchOut) (maxBytes : Nat)
    (urls : List String) (fetchedSet : List String) : WebFetchOut :=
  if urls = [] then
    ⟨.error "No URLs provided for fetching", [], fetchedSet⟩
  else
    let alreadyFetched := urls.filter (fun u => decide (u ∈ fetchedSet))
    let urlsToFetch := urls.filter (fun u => !decide (u ∈ fetchedSet))
    if urlsToFetch = [] then
      ⟨.error ("All URLs already fetched in this invocation: " ++
        joinComma alreadyFetched), [], fetchedSet⟩
    else
      let pages := runWebFetchMany fetch maxBytes
        (urlsToFetch.map (fun u => ⟨"", u, []⟩))
      if pages = [] then
        ⟨.error "Could not fetch any of the requested URLs", urlsToFetch, fetchedSet⟩
      else
        let newSet := pages.foldl
          (fun s p => if p.url ≠ "" ∧ ¬ p.url ∈ s then s ++ [p.url] else s)
          fetchedSet
        ⟨.pages (pages.map (fun p => (p.url, p.text))), urlsToFetch, newSet⟩

/-- C5: the fetch tool never hands the network coordinator a URL that is
already in the invocation's fetched-URL set, and when every requested
URL is already in that set (and the request is non-empty) it fails with
the explicit duplicate-URL error naming the already-fetched URLs while
handing nothing to the network layer. -/
theorem webFetchHandler_never_refetches (fetch : String → FetchOut)
    (maxBytes : Nat) (urls fetchedSet : List String) :
    (∀ u ∈ (webFetchHandler fetch maxBytes urls fetchedSet).requested,
      u ∉ fetchedSet) ∧
    (urls ≠ [] → (∀ u ∈ urls, u ∈ fetchedSet) →
      (webFetchHandler fetch maxBytes urls fetchedSet).requested = [] ∧
      (webFetchHandler fetch maxBytes urls fetchedSet).result =
        WebFetchResult.error ("All URLs already fetched in this invocation: " ++
          joinComma urls)) := by
  constructor
  · intro u hu
    unfold webFetchHandler at hu
    by_cases h0 : urls = []
    · rw [if_pos h0] at hu
      cases hu
    · rw [if_neg h0] at hu
      simp only at hu
      by_cases h1 : urls.filter (fun u => !decide (u ∈ fetchedSet)) = []
      · rw [if_pos h1] at hu
        cases hu
      · rw [if_neg h1] at hu
        by_cases h2 : runWebFetchMany fetch maxBytes
            ((urls.filter (fun u => !decide (u ∈ fetchedSet))).map
              (fun u => ⟨"", u, []⟩)) = []
        · rw [if_pos h2] at hu
          have := (List.mem_filter.mp hu).2
          simpa using this
        · rw [if_neg h2] at hu
          have := (List.mem_filter.mp hu).2
          simpa using this
  · intro hne hall
    have hfilter : urls.filter (fun u => !decide (u ∈ fetchedSet)) = [] := by
      rw [List.filter_eq_nil_iff]
      intro u hu
      simp [hall u hu]
    have hself : urls.filter (fun u => decide (u ∈ fetchedSet)) = urls := by
      rw [List.filter_eq_self]
      intro u hu
      simp [hall u hu]
    unfold webFetchHandler
    rw [if_neg hne]
    simp only [hfilter, hself, if_pos rfl]
    exact ⟨rfl, rfl⟩

/-- Witness for C5: requesting only the two already-fetched URLs fails
with the duplicate-URL error naming both, without touching the network. -/
theorem webFetchHandler_never_refetches_witness :
    (webFetchHandler (fun _ => FetchOut.ok ['x']) 10 ["a", "b"]
        ["a", "b"]).requested = [] ∧
    (webFetchHandler (fun _ => FetchOut.ok ['x']) 10 ["a", "b"]
        ["a", "b"]).result =
      WebFetchResult.error "All URLs already fetched in this invocation: a, b" := by
  have h := (webFetchHandler_never_refetches (fun _ => FetchOut.ok ['x']) 10
    ["a", "b"] ["a", "b"]).2 (by decide) (by decide)
  exact ⟨h.1, by rw [h.2]; rfl⟩

/-
Tool registry, from `src/src/tool-registry.js`. JS object identity is
observable through claim C7, so the registry is modelled with an
explicit heap: addresses are list indices, the module-level `tools`
dictionary and the snapshots returned by `getTools` are map objects
holding references to tool objects. The `parameters` field and the
handler function value are carried opaquely by the registry (the spread
copies them but never reads them), so the tool object keeps only the
fields the registry validates: the name, the description and whether
the handler is callable.
-/

/-- A JS heap object: a tool definition object (created by `registerTool`
via the spread) or a plain object used as a dictionary whose values are
references to other heap objects. -/
inductive JsObj
  | toolObj (name description : String) (handlerCallable : Bool)
  | mapObj (entries : List (String × Nat))
deriving DecidableEq

/-- A heap of JS objects; an address is an index into the list. -/
structure Heap where
  objs : List JsObj
deriving DecidableEq

def Heap.read (h : Heap) (a : Nat) : Option JsObj :=
  h.objs[a]?

def Heap.write (h : Heap) (a : Nat) (v : JsObj) : Heap :=
  ⟨h.objs.set a v⟩

def Heap.alloc (h : Heap) (v : JsObj) : Heap × Nat :=
  (⟨h.objs ++ [v]⟩, h.objs.length)

/-- JS property assignment on a dictionary (modelled as an association
list): replace the value of an existing key in place (key order
preserved), otherwise append the key at the end. Entry lists built by
the embedded code have distinct keys. -/
def setEntry {α : Type} : List (String × α) → String → α → List (String × α)
  | [], k, a => [(k, a)]
  | p :: rest, k, a =>
    if p.1 = k then (k, a) :: rest else p :: setEntry rest k a

/-- JS property read on a dictionary. -/
def findEntry {α : Type} : List (String × α) → String → Option α
  | [], _ => none
  | p :: rest, k => if p.1 = k then some p.2 else findEntry rest k

/-- JS `delete obj[key]` on a dictionary. -/
def eraseEntry {α : Type} (l : List (String × α)) (k : String) :
    List (String × α) :=
  l.filter (fun p => p.1 != k)

theorem findEntry_eraseEntry_self {α : Type} (l : List (String × α))
    (k : String) : findEntry (eraseEntry l k) k = none := by
  induction l with
  | nil => rfl
  | cons p rest ih =>
    by_cases hp : p.1 = k
    · simp only [eraseEntry, List.filter_cons, hp, bne_self_eq_false,
        Bool.false_eq_true, if_false]
      exact ih
    · have hb : (p.1 != k) = true := by simp [hp]
      simp only [eraseEntry, List.filter_cons, hb, if_true, findEntry, hp,
        if_false]
      exact ih

/-- The registry module state: the heap and the address of the
module-level `tools` object. -/
structure RegState where
  heap : Heap
  registryAddr : Nat
deriving DecidableEq

/-- The entry list of the registry's `tools` dictionary. -/
def RegState.entries (st : RegState) : List (String × Nat) :=
  match st.heap.read st.registryAddr with
  | some (.mapObj l) => l
  | _ => []

/-- Entry list of an optional heap object (empty when absent or not a
dictionary); used to read through a snapshot address. -/
def mapEntries : Option JsObj → List (String × Nat)
  | some (.mapObj l) => l
  | _ => []

/-- Well-formedness of a registry state: the `tools` address is
allocated and every entry references an allocated object distinct from
the `tools` dictionary itself. All states reachable through the module
operations satisfy this. -/
@[reducible] def RegState.wf (st : RegState) : Prop :=
  st.registryAddr < st.heap.objs.length ∧
  ∀ p ∈ st.entries, p.2 < st.heap.objs.length ∧ p.2 ≠ st.registryAddr

/-- The JS value passed as `definition` to `registerTool`: absent or
falsy, a non-object value, or an object with the fields the registry
validates (the empty string models a falsy or missing description;
`handlerCallable` models `typeof definition.handler === 'function'`). -/
inductive DefnVal
  | missing
  | nonObject
  | defObj (description : String) (handlerCallable : Bool)
deriving DecidableEq

/-- Description the claim reads off a definition value. -/
def defnDescription : DefnVal → String
  | .defObj d _ => d
  | _ => ""

/-- Whether the definition value carries a callable handler. -/
def defnHandlerCallable : DefnVal → Bool
  | .defObj _ c => c
  | _ => false

/-- Model of `registerTool` from `src/src/tool-registry.js` lines 7-25:
validates the name, the definition object, the handler and the
description in that order, then allocates `\x7b name, ...definition \x7d`
as a fresh tool object and points the `tools` dictionary entry for
`name` at it (overwriting any previous entry). -/
def registerTool (st : RegState) (name : String) (defn : DefnVal) :
    Except String RegState :=
  if name = "" then
    .error "Tool must have a name"
  else
    match defn with
    | .missing | .nonObject =>
      .error ("Tool \"" ++ name ++ "\" must provide a definition object")
    | .defObj description handlerCallable =>
      if handlerCallable = false then
        .error ("Tool \"" ++ name ++ "\" must provide an async handler function")
      else if description = "" then
        .error ("Tool \"" ++ name ++ "\" must provide a description")
      else
        let alloc := st.heap.alloc (.toolObj name description handlerCallable)
        .ok ⟨alloc.1.write st.registryAddr
              (.mapObj (setEntry st.entries name alloc.2)),
            st.registryAddr⟩

/-- Model of `getTools` from `src/src/tool-registry.js` lines 27-29:
`return \x7b ...tools \x7d` allocates a fresh dictionary with the same
entry references and returns its address. -/
def getTools (st : RegState) : RegState × Nat :=
  let alloc := st.heap.alloc (.mapObj st.entries)
  (⟨alloc.1, st.registryAddr⟩, alloc.2)

/-- Reading `tools[name]`: the tool object the registry's dictionary
currently references under `name`. -/
def lookupTool (st : RegState) (name : String) : Option JsObj :=
  match findEntry st.entries name with
  | some a => st.heap.read a
  | none => none

/-- The registry state at module load: `const tools = \x7b\x7d`. The
built-in current-time tool is then registered through `registerTool`
like any other tool. -/
def emptyRegistry : RegState :=
  ⟨⟨[.mapObj []]⟩, 0⟩

theorem findEntry_setEntry_self {α : Type} (l : List (String × α)) (k : String) (a : α) :
    findEntry (setEntry l k a) k = some a := by
  induction l with
  | nil => simp [setEntry, findEntry]
  | cons p rest ih =>
    by_cases hp : p.1 = k
    · simp [setEntry, findEntry, hp]
    · simp [setEntry, findEntry, hp, ih]

theorem findEntry_setEntry_ne {α : Type} (l : List (String × α)) (k k' : String) (a : α)
    (hne : k' ≠ k) :
    findEntry (setEntry l k a) k' = findEntry l k' := by
  have hkk : ¬ k = k' := fun h => hne h.symm
  induction l with
  | nil =>
    simp only [setEntry, findEntry]
    rw [if_neg hkk]
  | cons p rest ih =>
    simp only [setEntry]
    by_cases hp : p.1 = k
    · rw [if_pos hp]
      simp only [findEntry]
      rw [if_neg hkk, if_neg (show ¬ p.1 = k' from by rw [hp]; exact hkk)]
    · rw [if_neg hp]
      simp only [findEntry]
      rw [ih]

theorem findEntry_mem {α : Type} (l : List (String × α)) (k : String) (b : α)
    (h : findEntry l k = some b) : (k, b) ∈ l := by
  induction l with
  | nil => cases h
  | cons p rest ih =>
    by_cases hp : p.1 = k
    · simp only [findEntry, hp, if_true, Option.some.injEq] at h
      subst hp
      subst h
      exact List.mem_cons_self _ _
    · simp only [findEntry, hp, if_false] at h
      exact List.mem_cons_of_mem _ (ih h)

theorem Heap.read_alloc_lt (h : Heap) (v : JsObj) (b : Nat)
    (hb : b < h.objs.length) : (h.alloc v).1.read b = h.read b := by
  simp only [Heap.alloc, Heap.read]
  rw [List.getElem?_append, if_pos hb]

theorem Heap.read_alloc_self (h : Heap) (v : JsObj) :
    (h.alloc v).1.read (h.alloc v).2 = some v := by
  simp only [Heap.alloc, Heap.read]
  exact List.getElem?_concat_length _ _

theorem Heap.read_write_self (h : Heap) (a : Nat) (v : JsObj)
    (ha : a < h.objs.length) : (h.write a v).read a = some v := by
  simp only [Heap.write, Heap.read]
  exact List.getElem?_set_self ha

theorem Heap.read_write_ne (h : Heap) (a b : Nat) (v : JsObj) (hne : b ≠ a) :
    (h.write a v).read b = h.read b := by
  simp only [Heap.write, Heap.read]
  exact List.getElem?_set_ne (fun he => hne he.symm)

theorem Heap.read_write_alloc (h : Heap) (v w : JsObj) (b : Nat)
    (hb : b < h.objs.length) :
    ((h.alloc v).1.write (h.alloc v).2 w).read b = h.read b := by
  rw [Heap.read_write_ne _ _ _ _ (show b ≠ (h.alloc v).2 from Nat.ne_of_lt hb)]
  exact Heap.read_alloc_lt _ _ _ hb

theorem registerTool_ok_eq (st : RegState) (name d : String)
    (hn : name ≠ "") (hd : d ≠ "") :
    registerTool st name (.defObj d true) =
      .ok ⟨(st.heap.alloc (.toolObj name d true)).1.write st.registryAddr
            (.mapObj (setEntry st.entries name
              (st.heap.alloc (.toolObj name d true)).2)),
          st.registryAddr⟩ := by
  unfold registerTool
  rw [if_neg hn]
  simp only
  rw [if_neg (show ¬ (true = false) by simp), if_neg hd]

/-- C6: registration fails exactly when the name is empty, the
description is empty or missing, or the handler is not callable; on
success the registry's entry under the name references exactly the
freshly created definition object — so a valid re-registration under an
existing name replaces the previous definition — and every other name
keeps its previous definition. -/
theorem registerTool_spec (st : RegState) (name : String) (defn : DefnVal)
    (hwf : st.wf) :
    ((∃ e, registerTool st name defn = .error e) ↔
      name = "" ∨ defnDescription defn = "" ∨ defnHandlerCallable defn = false) ∧
    (∀ st', registerTool st name defn = .ok st' →
      lookupTool st' name = some (.toolObj name (defnDescription defn) true) ∧
      ∀ other, other ≠ name → lookupTool st' other = lookupTool st other) := by
  constructor
  · by_cases hn : name = ""
    · simp [registerTool, hn]
    · rcases defn with _ | _ | ⟨d, c⟩
      · simp [registerTool, hn, defnDescription, defnHandlerCallable]
      · simp [registerTool, hn, defnDescription, defnHandlerCallable]
      · by_cases hc : c = false
        · simp [registerTool, hn, hc, defnDescription, defnHandlerCallable]
        · by_cases hd : d = ""
          · simp [registerTool, hn, hc, hd, defnDescription, defnHandlerCallable]
          · simp [registerTool, hn, hc, hd, defnDescription, defnHandlerCallable]
  · intro st' hok
    by_cases hn : name = ""
    · simp [registerTool, hn] at hok
    · rcases defn with _ | _ | ⟨d, c⟩
      · simp [registerTool, hn] at hok
      · simp [registerTool, hn] at hok
      · cases c with
        | false => simp [registerTool, hn] at hok
        | true =>
          by_cases hd : d = ""
          · simp [registerTool, hn, hd] at hok
          · rw [registerTool_ok_eq st name d hn hd] at hok
            have hok2 := Except.ok.inj hok
            subst hok2
            have hlen : st.registryAddr < (st.heap.alloc
                (JsObj.toolObj name d true)).1.objs.length := by
              simp only [Heap.alloc, List.length_append, List.length_cons,
                List.length_nil]
              omega
            have hentries : (RegState.mk
                ((st.heap.alloc (JsObj.toolObj name d true)).1.write st.registryAddr
                  (.mapObj (setEntry st.entries name
                    (st.heap.alloc (JsObj.toolObj name d true)).2)))
                st.registryAddr).entries =
                setEntry st.entries name st.heap.objs.length := by
              simp only [RegState.entries]
              rw [Heap.read_write_self _ _ _ hlen]
              rfl
            constructor
            · simp only [lookupTool, hentries, findEntry_setEntry_self,
                defnDescription]
              rw [Heap.read_write_ne]
              · exact Heap.read_alloc_self st.heap (JsObj.toolObj name d true)
              · exact Nat.ne_of_gt hwf.1
            · intro other hother
              simp only [lookupTool, hentries,
                findEntry_setEntry_ne _ _ _ _ hother]
              rcases hfe : findEntry st.entries other with _ | b
              · rfl
              · have hbmem := findEntry_mem _ _ _ hfe
                have hb := hwf.2 _ hbmem
                dsimp only
                rw [Heap.read_write_ne _ _ _ _ hb.2]
                exact Heap.read_alloc_lt _ _ _ hb.1

/-- Witness for C6 at a concrete state: registering a valid tool into
the module-load registry stores it and leaves other names absent. -/
theorem registerTool_spec_witness :
    lookupTool ⟨⟨[JsObj.mapObj [("t", 1)], JsObj.toolObj "t" "d" true]⟩, 0⟩ "t" =
      some (JsObj.toolObj "t" "d" true) ∧
    lookupTool ⟨⟨[JsObj.mapObj [("t", 1)], JsObj.toolObj "t" "d" true]⟩, 0⟩ "x" =
      lookupTool emptyRegistry "x" := by
  have h := (registerTool_spec emptyRegistry "t" (DefnVal.defObj "d" true)
    (by decide)).2
    ⟨⟨[JsObj.mapObj [("t", 1)], JsObj.toolObj "t" "d" true]⟩, 0⟩ (by rfl)
  exact ⟨h.1, h.2 "x" (by decide)⟩

/-- C7 as stated is false: `getTools` returns `\x7b ...tools \x7d`, a
shallow copy, so the returned snapshot shares the per-tool definition
objects with the live registry. Concretely: after registering tool "t"
with description "good", the snapshot returned by `getTools` maps "t"
to the same heap address 1 as the live registry, and writing that
object's fields through the snapshot (modelling
`snapshot.t.description = 'evil'`) changes what the live registry
returns for "t" from "good" to "evil". -/
theorem getTools_shared_definition_mutation_counterexample :
    registerTool emptyRegistry "t" (DefnVal.defObj "good" true) =
      Except.ok ⟨⟨[JsObj.mapObj [("t", 1)], JsObj.toolObj "t" "good" true]⟩, 0⟩ ∧
    lookupTool ⟨⟨[JsObj.mapObj [("t", 1)], JsObj.toolObj "t" "good" true]⟩, 0⟩ "t" =
      some (JsObj.toolObj "t" "good" true) ∧
    getTools ⟨⟨[JsObj.mapObj [("t", 1)], JsObj.toolObj "t" "good" true]⟩, 0⟩ =
      (⟨⟨[JsObj.mapObj [("t", 1)], JsObj.toolObj "t" "good" true,
          JsObj.mapObj [("t", 1)]]⟩, 0⟩, 2) ∧
    findEntry (mapEntries (Heap.read ⟨[JsObj.mapObj [("t", 1)],
        JsObj.toolObj "t" "good" true, JsObj.mapObj [("t", 1)]]⟩ 2)) "t" =
      some 1 ∧
    lookupTool ⟨Heap.write ⟨[JsObj.mapObj [("t", 1)],
        JsObj.toolObj "t" "good" true, JsObj.mapObj [("t", 1)]]⟩ 1
        (JsObj.toolObj "t" "evil" true), 0⟩ "t" =
      some (JsObj.toolObj "t" "evil" true) := by
  refine ⟨rfl, rfl, rfl, rfl, rfl⟩

/-- C7 amended: the snapshot returned by `getTools` is a fresh
dictionary object (its address is not the registry's address) holding
the same entries, and any mutation of the snapshot's own entry set —
adding, removing or replacing entries, modelled as overwriting the
snapshot object with an arbitrary entry list — leaves every lookup in
the live registry unchanged; only the per-definition objects are
shared (see the counterexample for the field-level aliasing). -/
theorem getTools_snapshot_entries_independent (st : RegState) (hwf : st.wf) :
    (getTools st).2 ≠ st.registryAddr ∧
    mapEntries ((getTools st).1.heap.read (getTools st).2) = st.entries ∧
    ∀ (l : List (String × Nat)) (name : String),
      lookupTool ⟨(getTools st).1.heap.write (getTools st).2 (.mapObj l),
          st.registryAddr⟩ name = lookupTool st name := by
  refine ⟨?_, ?_, ?_⟩
  · exact Nat.ne_of_gt hwf.1
  · simp only [getTools]
    rw [Heap.read_alloc_self]
    rfl
  · intro l name
    have hreg : (RegState.mk ((getTools st).1.heap.write (getTools st).2
        (.mapObj l)) st.registryAddr).entries = st.entries := by
      simp only [RegState.entries, getTools]
      rw [Heap.read_write_alloc _ _ _ _ hwf.1]
    simp only [lookupTool, hreg]
    rcases hfe : findEntry st.entries name with _ | b
    · rfl
    · have hbmem := findEntry_mem _ _ _ hfe
      have hb := hwf.2 _ hbmem
      dsimp only
      simp only [getTools]
      exact Heap.read_write_alloc _ _ _ _ hb.1

/-- Witness for the amended C7: emptying the snapshot's entry set does
not change what the live registry returns for "t". -/
theorem getTools_snapshot_entries_independent_witness :
    lookupTool ⟨(getTools ⟨⟨[JsObj.mapObj [("t", 1)],
          JsObj.toolObj "t" "d" true]⟩, 0⟩).1.heap.write
        (getTools ⟨⟨[JsObj.mapObj [("t", 1)],
          JsObj.toolObj "t" "d" true]⟩, 0⟩).2 (.mapObj []), 0⟩ "t" =
      lookupTool ⟨⟨[JsObj.mapObj [("t", 1)], JsObj.toolObj "t" "d" true]⟩, 0⟩ "t" :=
  (getTools_snapshot_entries_independent
    ⟨⟨[JsObj.mapObj [("t", 1)], JsObj.toolObj "t" "d" true]⟩, 0⟩
    (by decide)).2.2 [] "t"

/-
Conversation memory, from `src/src/hubot-ollama.js`: the
`ollamaContexts` dictionary kept in the brain, with
`getConversationHistory` (lines 194-220) and `storeConversationTurn`
(lines 223-258). Times (`Date.now()`, the TTL) are naturals.
-/

/-- User metadata spread into a stored turn for room-scope contexts. -/
structure TurnMeta where
  userId : String
  userName : String
  userDisplayName : String
deriving DecidableEq

/-- One stored conversation turn: the user prompt, the assistant
response, and — only when the context scope is `room` — the user
metadata fields spread into the turn object. -/
structure Turn where
  user : String
  assistant : String
  meta : Option TurnMeta
deriving DecidableEq

/-- The configured context scope (HUBOT_OLLAMA_CONTEXT_SCOPE). -/
inductive Scope
  | roomUser
  | room
  | thread
deriving DecidableEq

/-- One entry of the `ollamaContexts` dictionary. -/
structure Context where
  history : List Turn
  lastUpdated : Nat
deriving DecidableEq

/-- JS `array.slice(-n)` for a natural `n`: the last `n` elements,
except that `slice(-0)` is `slice(0)`, the whole array. -/
def sliceLast {α : Type} (l : List α) (n : Nat) : List α :=
  if n = 0 then l else l.drop (l.length - n)

/-- Model of `storeConversationTurn` from `src/src/hubot-ollama.js`
lines 223-258: a no-op when the TTL is configured as zero; otherwise
creates the entry if absent, appends the turn (with the user metadata
spread in when the scope is `room`), trims the history to the last
`cap` turns when it exceeds the cap, and stamps `lastUpdated` with the
current time. `key` is the context key derived by `getContextKey` and
`userInfo` the metadata derived by `getUserInfo`. -/
def storeConversationTurn (ttl cap : Nat) (scope : Scope) (now : Nat)
    (contexts : List (String × Context)) (key : String) (userInfo : TurnMeta)
    (userPrompt assistantResponse : String) : List (String × Context) :=
  if ttl = 0 then contexts
  else
    let c := (findEntry contexts key).getD ⟨[], now⟩
    let turn : Turn := ⟨userPrompt, assistantResponse,
      if scope = .room then some userInfo else none⟩
    let h := c.history ++ [turn]
    let h2 := if cap < h.length then sliceLast h cap else h
    setEntry contexts key ⟨h2, now⟩

/-- Model of `getConversationHistory` from `src/src/hubot-ollama.js`
lines 194-220: empty when the memory feature is disabled (TTL zero) or
the entry is absent; deletes the entry and returns empty when
`now - lastUpdated > TTL`; otherwise returns the stored history. The
second component is the `ollamaContexts` dictionary after the call. -/
def getConversationHistory (ttl now : Nat)
    (contexts : List (String × Context)) (key : String) :
    List Turn × List (String × Context) :=
  if ttl = 0 then ([], contexts)
  else
    match findEntry contexts key with
    | none => ([], contexts)
    | some c =>
      if ttl < now - c.lastUpdated then
        ([], eraseEntry contexts key)
      else
        (c.history, contexts)

/-- The arguments of one `storeConversationTurn` call. -/
structure StoreCall where
  now : Nat
  key : String
  userInfo : TurnMeta
  userPrompt : String
  assistantResponse : String
deriving DecidableEq

/-- The turn object a store call appends under the given scope. -/
def mkTurn (scope : Scope) (c : StoreCall) : Turn :=
  ⟨c.userPrompt, c.assistantResponse,
    if scope = .room then some c.userInfo else none⟩

/-- Folding a sequence of `storeConversationTurn` calls over the
`ollamaContexts` dictionary. -/
def applyStores (ttl cap : Nat) (scope : Scope) (calls : List StoreCall)
    (contexts : List (String × Context)) : List (String × Context) :=
  calls.foldl
    (fun cs c => storeConversationTurn ttl cap scope c.now cs c.key c.userInfo
      c.userPrompt c.assistantResponse)
    contexts

/-- The stored history for a key ([] when the entry is absent). -/
def histOf (contexts : List (String × Context)) (key : String) : List Turn :=
  ((findEntry contexts key).getD ⟨[], 0⟩).history

theorem applyStores_append (ttl cap : Nat) (scope : Scope)
    (calls : List StoreCall) (c : StoreCall)
    (contexts : List (String × Context)) :
    applyStores ttl cap scope (calls ++ [c]) contexts =
      storeConversationTurn ttl cap scope c.now
        (applyStores ttl cap scope calls contexts) c.key c.userInfo
        c.userPrompt c.assistantResponse := by
  unfold applyStores
  rw [List.foldl_append]
  rfl

theorem trim_snoc_eq_drop (cap : Nat) (hcap : 1 ≤ cap) (T : List Turn)
    (t : Turn) :
    (if cap < ((T.drop (T.length - cap)) ++ [t]).length then
        sliceLast ((T.drop (T.length - cap)) ++ [t]) cap
      else (T.drop (T.length - cap)) ++ [t]) =
      (T ++ [t]).drop ((T ++ [t]).length - cap) := by
  have hlenT : (T.drop (T.length - cap)).length = T.length - (T.length - cap) :=
    List.length_drop _ _
  by_cases hlt : T.length < cap
  · have hd : T.length - cap = 0 := by omega
    rw [hd] at hlenT ⊢
    simp only [List.drop_zero]
    rw [if_neg (by simp only [List.length_append, List.length_cons,
      List.length_nil]; omega)]
    have : (T ++ [t]).length - cap = 0 := by
      simp only [List.length_append, List.length_cons, List.length_nil]
      omega
    rw [this, List.drop_zero]
  · have hge : cap ≤ T.length := by omega
    have hlen2 : (T.drop (T.length - cap)).length = cap := by omega
    rw [if_pos (by simp only [List.length_append, List.length_cons,
      List.length_nil]; omega)]
    unfold sliceLast
    rw [if_neg (by omega)]
    simp only [List.length_append, List.length_cons, List.length_nil]
    have h1 : (T.drop (T.length - cap)).length + 1 - cap = 1 := by omega
    rw [h1]
    rw [List.drop_append_eq_append_drop]
    rw [List.drop_append_eq_append_drop]
    rw [List.drop_drop]
    have h2 : 1 - (T.drop (T.length - cap)).length = 0 := by omega
    have h3 : T.length + 1 - cap - T.length = 0 := by omega
    rw [h2, h3]
    simp only [List.drop_zero]
    have h4 : T.length - cap + 1 = T.length + 1 - cap := by omega
    rw [h4]

theorem getD_history (o : Option Context) (n : Nat) :
    (o.getD ⟨[], n⟩).history = (o.getD ⟨[], 0⟩).history := by
  cases o <;> rfl

theorem histOf_store_self (ttl cap : Nat) (scope : Scope) (now : Nat)
    (contexts : List (String × Context)) (key : String) (ui : TurnMeta)
    (up ar : String) (httl : ttl ≠ 0) :
    histOf (storeConversationTurn ttl cap scope now contexts key ui up ar) key =
      (if cap < (histOf contexts key ++
          [Turn.mk up ar (if scope = .room then some ui else none)]).length then
        sliceLast (histOf contexts key ++
          [Turn.mk up ar (if scope = .room then some ui else none)]) cap
      else histOf contexts key ++
        [Turn.mk up ar (if scope = .room then some ui else none)]) := by
  unfold storeConversationTurn
  rw [if_neg httl]
  unfold histOf
  simp only [findEntry_setEntry_self, Option.getD_some]
  rw [getD_history]

theorem histOf_store_other (ttl cap : Nat) (scope : Scope) (now : Nat)
    (contexts : List (String × Context)) (key key' : String) (ui : TurnMeta)
    (up ar : String) (hk : key' ≠ key) :
    histOf (storeConversationTurn ttl cap scope now contexts key ui up ar) key' =
      histOf contexts key' := by
  unfold storeConversationTurn
  by_cases httl : ttl = 0
  · rw [if_pos httl]
  · rw [if_neg httl]
    unfold histOf
    rw [findEntry_setEntry_ne _ _ _ _ hk]

theorem histOf_applyStores (ttl cap : Nat) (scope : Scope) (hcap : 1 ≤ cap)
    (httl : ttl ≠ 0) (calls : List StoreCall) (key : String) :
    histOf (applyStores ttl cap scope calls []) key =
      ((calls.filter (fun c => c.key == key)).map (mkTurn scope)).drop
        (((calls.filter (fun c => c.key == key)).map (mkTurn scope)).length -
          cap) := by
  induction calls using List.reverseRecOn with
  | nil => simp [applyStores, histOf, findEntry]
  | append_singleton calls c ih =>
    rw [applyStores_append]
    simp only [List.filter_append, List.map_append]
    by_cases hk : c.key = key
    · have hb : (c.key == key) = true := by simp [hk]
      have hfil : List.filter (fun x => x.key == key) [c] = [c] := by
        simp [List.filter, hb]
      rw [hfil]
      simp only [List.map_cons, List.map_nil]
      subst hk
      rw [histOf_store_self _ _ _ _ _ _ _ _ _ httl, ih]
      have := trim_snoc_eq_drop cap hcap
        ((calls.filter (fun x => x.key == c.key)).map (mkTurn scope))
        (mkTurn scope c)
      simp only [List.length_append, List.length_cons, List.length_nil] at this ⊢
      exact this
    · have hb : (c.key == key) = false := by simp [hk]
      have hfil : List.filter (fun x => x.key == key) [c] = [] := by
        simp [List.filter, hb]
      rw [hfil]
      simp only [List.map_nil, List.append_nil]
      rw [histOf_store_other _ _ _ _ _ _ _ _ _ _ (fun h => hk h.symm), ih]

/-- C4: for every context key and every sequence of `storeConversationTurn`
calls starting from an empty store, the stored history never exceeds the
configured turn cap, and (when the memory feature is enabled) the stored
history is exactly the most recent turns appended for that key, in
chronological order — the oldest turns are the ones dropped. The cap is
at least 1 by configuration (`Math.max(1, ...)`). -/
theorem storeTurn_cap_invariant (ttl cap : Nat) (scope : Scope)
    (hcap : 1 ≤ cap) (calls : List StoreCall) (key : String) :
    (histOf (applyStores ttl cap scope calls []) key).length ≤ cap ∧
    (ttl ≠ 0 →
      histOf (applyStores ttl cap scope calls []) key =
        ((calls.filter (fun c => c.key == key)).map (mkTurn scope)).drop
          (((calls.filter (fun c => c.key == key)).map (mkTurn scope)).length -
            cap)) := by
  by_cases httl : ttl = 0
  · subst httl
    have hid : applyStores 0 cap scope calls [] = [] := by
      induction calls with
      | nil => rfl
      | cons c rest ih =>
        unfold applyStores at ih ⊢
        simp only [List.foldl_cons]
        unfold storeConversationTurn
        rw [if_pos rfl]
        exact ih
    rw [hid]
    exact ⟨by simp [histOf, findEntry], fun h => absurd rfl h⟩
  · have h := histOf_applyStores ttl cap scope hcap httl calls key
    constructor
    · rw [h, List.length_drop]
      omega
    · intro _
      exact h

/-- Witness for C4: with cap 2 and memory enabled, storing three turns
under one key keeps only the last two, in order, and another key is
unaffected. -/
theorem storeTurn_cap_invariant_witness :
    (histOf (applyStores 600000 2 Scope.roomUser
      [⟨1, "k", ⟨"u", "u", "u"⟩, "p1", "a1"⟩,
       ⟨2, "k", ⟨"u", "u", "u"⟩, "p2", "a2"⟩,
       ⟨3, "k", ⟨"u", "u", "u"⟩, "p3", "a3"⟩] []) "k").length ≤ 2 ∧
    histOf (applyStores 600000 2 Scope.roomUser
      [⟨1, "k", ⟨"u", "u", "u"⟩, "p1", "a1"⟩,
       ⟨2, "k", ⟨"u", "u", "u"⟩, "p2", "a2"⟩,
       ⟨3, "k", ⟨"u", "u", "u"⟩, "p3", "a3"⟩] []) "k" =
      [⟨"p2", "a2", none⟩, ⟨"p3", "a3", none⟩] := by
  have h := storeTurn_cap_invariant 600000 2 Scope.roomUser (by decide)
    [⟨1, "k", ⟨"u", "u", "u"⟩, "p1", "a1"⟩,
     ⟨2, "k", ⟨"u", "u", "u"⟩, "p2", "a2"⟩,
     ⟨3, "k", ⟨"u", "u", "u"⟩, "p3", "a3"⟩] "k"
  refine ⟨h.1, ?_⟩
  rw [h.2 (by decide)]
  rfl

/-- Modelled from the spec: the summary-bearing conversation context of
the ContextStore (spec sections 3 and 4.2). The summarization feature
that maintains `summary` and `summarizedUntil` is code of this
repository missing from the provided sources — only its tests
(`test/context-summarization.test.js`, which fixes exactly this entry
shape) are present. -/
structure SpecContext where
  history : List Turn
  summary : Option String
  summarizedUntil : Option Nat
  lastUpdated : Nat
deriving DecidableEq

/-- Modelled from the spec: `getHistory(key) -> (history, summary)` of
spec section 4.2, over the summary-bearing store. If the memory feature
is disabled (TTL configured as zero) it returns empty unconditionally;
if the entry is absent it returns empty; if `now - lastUpdated > TTL`
it deletes the entry and returns empty; otherwise it returns the
entry's `history` and `summary`. The TTL comparison and the expiry
cleanup follow `getConversationHistory` in `src/src/hubot-ollama.js`
lines 194-220, which implements the same logic on the summary-free
entry shape. The second component is the store after the call. -/
def getHistory (ttl now : Nat) (contexts : List (String × SpecContext))
    (key : String) :
    (List Turn × Option String) × List (String × SpecContext) :=
  if ttl = 0 then (([], none), contexts)
  else
    match findEntry contexts key with
    | none => (([], none), contexts)
    | some c =>
      if ttl < now - c.lastUpdated then
        (([], none), eraseEntry contexts key)
      else
        ((c.history, c.summary), contexts)

/-- C3: for every context key — if the memory feature is disabled (TTL
zero), `getHistory` returns empty unconditionally; if no entry exists,
it returns empty; if the entry is expired (`now - lastUpdated > TTL`)
it returns empty and deletes the entry, so the entry is gone and any
later `getHistory` on that key returns empty; otherwise it returns the
entry's stored history and summary unchanged, leaving the store
untouched. -/
theorem getHistory_spec (ttl now : Nat)
    (contexts : List (String × SpecContext)) (key : String) :
    (ttl = 0 → getHistory ttl now contexts key = (([], none), contexts)) ∧
    (ttl ≠ 0 → findEntry contexts key = none →
      getHistory ttl now contexts key = (([], none), contexts)) ∧
    (∀ c, ttl ≠ 0 → findEntry contexts key = some c →
      ttl < now - c.lastUpdated →
      (getHistory ttl now contexts key).1 = ([], none) ∧
      findEntry (getHistory ttl now contexts key).2 key = none ∧
      ∀ later, (getHistory ttl later (getHistory ttl now contexts key).2 key).1 =
        ([], none)) ∧
    (∀ c, ttl ≠ 0 → findEntry contexts key = some c →
      ¬ ttl < now - c.lastUpdated →
      getHistory ttl now contexts key = ((c.history, c.summary), contexts)) := by
  refine ⟨?_, ?_, ?_, ?_⟩
  · intro h0
    unfold getHistory
    rw [if_pos h0]
  · intro h0 hfe
    unfold getHistory
    rw [if_neg h0, hfe]
  · intro c h0 hfe hexp
    have hrun : getHistory ttl now contexts key =
        (([], none), eraseEntry contexts key) := by
      unfold getHistory
      rw [if_neg h0, hfe]
      simp only
      rw [if_pos hexp]
    refine ⟨by rw [hrun], ?_, ?_⟩
    · rw [hrun]
      exact findEntry_eraseEntry_self contexts key
    · intro later
      rw [hrun]
      unfold getHistory
      rw [if_neg h0, findEntry_eraseEntry_self contexts key]
  · intro c h0 hfe hfresh
    unfold getHistory
    rw [if_neg h0, hfe]
    simp only
    rw [if_neg hfresh]

/-- Witness for C3, following Scenario D of the spec: with TTL 600000, a
context stamped at time 0 is returned (with its summary) at time 500000
and is expired, deleted and empty at time 700000; afterwards the key is
gone. -/
theorem getHistory_spec_witness :
    getHistory 600000 500000
        [("r:u", ⟨[⟨"hi", "hello", none⟩], some "sum", some 1, 0⟩)] "r:u" =
      (([⟨"hi", "hello", none⟩], some "sum"),
        [("r:u", ⟨[⟨"hi", "hello", none⟩], some "sum", some 1, 0⟩)]) ∧
    (getHistory 600000 700000
        [("r:u", ⟨[⟨"hi", "hello", none⟩], some "sum", some 1, 0⟩)] "r:u").1 =
      ([], none) ∧
    findEntry (getHistory 600000 700000
        [("r:u", ⟨[⟨"hi", "hello", none⟩], some "sum", some 1, 0⟩)] "r:u").2
        "r:u" = none := by
  have h := getHistory_spec 600000 700000
    [("r:u", ⟨[⟨"hi", "hello", none⟩], some "sum", some 1, 0⟩)] "r:u"
  have h2 := (getHistory_spec 600000 500000
    [("r:u", ⟨[⟨"hi", "hello", none⟩], some "sum", some 1, 0⟩)] "r:u").2.2.2
    ⟨[⟨"hi", "hello", none⟩], some "sum", some 1, 0⟩
    (by decide) (by rfl) (by decide)
  have h3 := h.2.2.1 ⟨[⟨"hi", "hello", none⟩], some "sum", some 1, 0⟩
    (by decide) (by rfl) (by decide)
  exact ⟨h2, h3.1, h3.2.1⟩

/-
Context key derivation, from `src/src/hubot-ollama.js`: `getThreadId`
(lines 132-142), `getUserInfo` (lines 145-170, only the `id` component
is needed here) and `getContextKey` (lines 172-191). Optional JS string
fields are `Option String`; a present empty string is falsy in JS, so
truthiness is modelled explicitly.
-/

/-- JS truthiness of an optional string: `none` for absent or empty. -/
def tru : Option String → Option String
  | some s => if s = "" then none else some s
  | none => none

/-- A JS `||` chain over string-valued operands ending in `null`: the
first truthy value, or `none`. -/
def firstTruthy : List (Option String) → Option String
  | [] => none
  | o :: rest =>
    match tru o with
    | some s => some s
    | none => firstTruthy rest

/-- The `user` object carried by a chat message. -/
structure JsUser where
  id : Option String
  name : Option String
  real_name : Option String
deriving DecidableEq

/-- The `rawMessage` adapter payload (thread fields only). -/
structure RawMsg where
  thread_ts : Option String
  threadId : Option String
deriving DecidableEq

/-- The `envelope.message` payload (thread fields only). -/
structure EnvMsg where
  thread_ts : Option String
  threadId : Option String
deriving DecidableEq

/-- The `msg.envelope` object. -/
structure Envelope where
  message : Option EnvMsg
deriving DecidableEq

/-- The `msg.message` object: thread identifiers under the adapter
patterns probed by `getThreadId`, the room, and the user. -/
structure InnerMsg where
  thread_id : Option String
  threadId : Option String
  thread_ts : Option String
  rawMessage : Option RawMsg
  room : Option String
  user : Option JsUser
deriving DecidableEq

/-- The hubot response object `msg` as read by the context-key code. -/
structure Msg where
  message : Option InnerMsg
  envelope : Option Envelope
deriving DecidableEq

/-- Model of `getThreadId` (lines 132-142): probes
`m.thread_id || m.threadId || m.thread_ts`, then the `rawMessage`
thread fields, then the `envelope.message` thread fields, returning the
first truthy value or null. -/
def getThreadId (msg : Msg) : Option String :=
  match msg.message with
  | none => none
  | some m =>
    firstTruthy
      [m.thread_id, m.threadId, m.thread_ts,
       (match m.rawMessage with
        | some r => firstTruthy [r.thread_ts, r.threadId]
        | none => none),
       (match msg.envelope with
        | some e =>
          match e.message with
          | some em => firstTruthy [em.thread_ts, em.threadId]
          | none => none
        | none => none)]

/-- The `id` component of `getUserInfo` (lines 145-170):
`user.id || user.name || 'unknown-user'`, with the unknown fallback
when the message or its user is absent. -/
def getUserId (msg : Msg) : String :=
  match msg.message with
  | none => "unknown-user"
  | some m =>
    match m.user with
    | none => "unknown-user"
    | some u =>
      match tru u.id with
      | some s => s
      | none =>
        match tru u.name with
        | some s => s
        | none => "unknown-user"

/-- The room identifier used by `getContextKey`:
`(msg && msg.message && msg.message.room) || 'direct'`. -/
def roomIdOf (msg : Msg) : String :=
  match msg.message with
  | none => "direct"
  | some m =>
    match tru m.room with
    | some r => r
    | none => "direct"

/-- Model of `getContextKey` (lines 172-191): `room#thread` in thread
scope when a thread id is present, the bare room id in thread scope
without a thread id and in room scope, and `room:userId` in room-user
scope. -/
def getContextKey (scope : Scope) (msg : Msg) : String :=
  match scope with
  | .thread =>
    match getThreadId msg with
    | some t => roomIdOf msg ++ "#" ++ t
    | none => roomIdOf msg
  | .room => roomIdOf msg
  | .roomUser => roomIdOf msg ++ ":" ++ getUserId msg

/-- C10: in thread scope, a message without a thread identifier gets the
bare room identifier as its context key — exactly the key room scope
would produce for the same message — and the key does not depend on the
user, so every non-threaded message in a room, from any user, shares
one conversation context. -/
theorem getContextKey_thread_fallback (msg : Msg)
    (hnt : getThreadId msg = none) :
    getContextKey .thread msg = getContextKey .room msg ∧
    getContextKey .thread msg = roomIdOf msg ∧
    ∀ msg2, getThreadId msg2 = none → roomIdOf msg2 = roomIdOf msg →
      getContextKey .thread msg2 = getContextKey .thread msg := by
  have h1 : getContextKey .thread msg = roomIdOf msg := by
    unfold getContextKey
    rw [hnt]
  refine ⟨h1, h1, ?_⟩
  intro msg2 hnt2 hroom
  have h2 : getContextKey .thread msg2 = roomIdOf msg2 := by
    unfold getContextKey
    rw [hnt2]
  rw [h1, h2, hroom]

/-- Witness for C10: two messages in room `general` from different
users, neither carrying any thread field, share the key `general`. -/
theorem getContextKey_thread_fallback_witness :
    getContextKey .thread
        ⟨some ⟨none, none, none, none, some "general",
          some ⟨some "alice", none, none⟩⟩, none⟩ =
      getContextKey .room
        ⟨some ⟨none, none, none, none, some "general",
          some ⟨some "alice", none, none⟩⟩, none⟩ ∧
    getContextKey .thread
        ⟨some ⟨none, none, none, none, some "general",
          some ⟨some "bob", none, none⟩⟩, none⟩ =
      getContextKey .thread
        ⟨some ⟨none, none, none, none, some "general",
          some ⟨some "alice", none, none⟩⟩, none⟩ := by
  have h := getContextKey_thread_fallback
    ⟨some ⟨none, none, none, none, some "general",
      some ⟨some "alice", none, none⟩⟩, none⟩ (by decide)
  exact ⟨h.1, h.2.2
    ⟨some ⟨none, none, none, none, some "general",
      some ⟨some "bob", none, none⟩⟩, none⟩ (by decide) (by decide)⟩

/-
PHASE 3 of `askOllama`, from `src/src/hubot-ollama.js` lines 471-592:
the bounded chained-tool-call loop. The model transport is scripted as
a finite list of replies consumed one per `ollama.chat` call (a run
that would make more calls than the script provides ends in a
`scriptEnded` artifact); handler outcomes are an oracle indexed by the
number of handler invocations made so far; the registry is abstracted
to which names have a handler. JSON serialization of tool results into
the `messages` array is kept structural rather than textual.
-/

/-- A tool call carried by a model reply; the arguments are opaque
(the loop only parses and forwards them to the handler). -/
structure ToolCall where
  name : String
  args : String
deriving DecidableEq

/-- One model-transport reply: text content (empty models absent or
blank content, which is falsy in JS) and the `tool_calls` array (empty
models an absent or empty array). -/
structure ChatResp where
  content : String
  tool_calls : List ToolCall
deriving DecidableEq

/-- A tool handler return value as observed by the loop: the `context`
field probed for the web-search tool, plus the rest of the value
abstracted by its serialized text. -/
structure ToolResultV where
  context : Option String
  payload : String
deriving DecidableEq

/-- Outcome of the n-th chained handler invocation of the run. -/
inductive ExecOutcome
  | threw (msg : String)
  | ret (res : ToolResultV)
deriving DecidableEq

/-- Content of a message appended during the loop, kept structural:
plain assistant text, a serialized tool result, a serialized
`error: ...` object, the fixed skip notice for a duplicate web search,
and the `Relevant web context` system message. -/
inductive MsgContent
  | text (s : String)
  | json (r : ToolResultV)
  | jsonError (e : String)
  | skipNotice
  | webContext (c : String)
deriving DecidableEq

/-- One message pushed onto the `messages` array by the loop. -/
structure LoopMsg where
  role : String
  content : MsgContent
  toolCall : Option ToolCall
deriving DecidableEq

/-- Name of the web search tool. -/
def webSearchName : String := "hubot_ollama_web_search"

/-- JS truthiness of the `context` field. -/
def truthyStr : Option String → Bool
  | some s => s != ""
  | none => false

/-- The loop's local state: the `messages` array, `toolIterationCount`,
`webSearchAlreadyPerformed`, the running `totalApiCalls` contribution
of the loop, the number of skipped duplicate web searches (implicit in
the source: iterations decremented away), and how many handler
invocations have happened. -/
structure P3State where
  messages : List LoopMsg
  iter : Nat
  webDone : Bool
  apiCalls : Nat
  skips : Nat
  execIdx : Nat
deriving DecidableEq

/-- Why the loop stopped: a reply without tool calls (`break`), the
`toolIterationCount < 5` condition failing, or the scripted transport
running out of replies (an artifact of the finite script). -/
inductive P3Exit
  | noToolCall
  | capReached
  | scriptEnded
deriving DecidableEq

/-- The loop's result: final state, exit kind, and `currentResponse`. -/
structure P3Result where
  state : P3State
  exit : P3Exit
  last : Option ChatResp
deriving DecidableEq

/-- Model of the `while (toolIterationCount < maxToolIterations)` loop
(lines 478-592, `maxToolIterations = 5`): each iteration makes one
`ollama.chat` call; a reply without tool calls breaks; a chained web
search with `webSearchAlreadyPerformed` set is skipped, pushes the skip
notice, and decrements the iteration counter; otherwise the handler
runs (throw converted to a serialized error result, unknown tool to a
not-found error result), a successful web search with truthy `context`
sets `webSearchAlreadyPerformed` and pushes the context system
message. -/
def p3Loop (registered : String → Bool) (execOut : Nat → ExecOutcome) :
    List ChatResp → P3State → Option ChatResp → P3Result
  | [], st, last =>
    if 5 ≤ st.iter then ⟨st, .capReached, last⟩
    else ⟨st, .scriptEnded, last⟩
  | r :: rest, st, last =>
    if 5 ≤ st.iter then ⟨st, .capReached, last⟩
    else
      let st1 : P3State :=
        { st with iter := st.iter + 1, apiCalls := st.apiCalls + 1 }
      match r.tool_calls with
      | [] => ⟨st1, .noToolCall, some r⟩
      | tc :: _ =>
        if tc.name = webSearchName ∧ st1.webDone = true then
          p3Loop registered execOut rest
            { st1 with
              iter := st1.iter - 1,
              skips := st1.skips + 1,
              messages := st1.messages ++
                [⟨"assistant", .text r.content, some tc⟩,
                 ⟨"user", .skipNotice, none⟩] }
            (some r)
        else if registered tc.name then
          match execOut st1.execIdx with
          | .ret res =>
            p3Loop registered execOut rest
              { st1 with
                webDone :=
                  if tc.name = webSearchName ∧ truthyStr res.context = true
                  then true else st1.webDone,
                execIdx := st1.execIdx + 1,
                messages := st1.messages ++
                  [⟨"assistant", .text r.content, some tc⟩] ++
                  (if tc.name = webSearchName ∧ truthyStr res.context = true
                   then [⟨"system", .webContext (res.context.getD ""), none⟩]
                   else []) ++
                  [⟨"user", .json res, none⟩] }
              (some r)
          | .threw m =>
            p3Loop registered execOut rest
              { st1 with
                execIdx := st1.execIdx + 1,
                messages := st1.messages ++
                  [⟨"assistant", .text r.content, some tc⟩,
                   ⟨"user", .jsonError m, none⟩] }
              (some r)
        else
          p3Loop registered execOut rest
            { st1 with
              messages := st1.messages ++
                [⟨"assistant", .text r.content, some tc⟩,
                 ⟨"user", .jsonError ("Tool " ++ tc.name ++ " not found"),
                  none⟩] }
            (some r)

/-- A whole PHASE 3 run: the loop started on the messages built by
phases 1-2, with `webSearchAlreadyPerformed` initialized from whether
the phase-1 tool was the web search (line 475), zero iterations and
zero loop API calls. -/
def runPhase3 (registered : String → Bool) (execOut : Nat → ExecOutcome)
    (webDone0 : Bool) (msgs0 : List LoopMsg) (script : List ChatResp) :
    P3Result :=
  p3Loop registered execOut script ⟨msgs0, 0, webDone0, 0, 0, 0⟩ none

/-- The non-streaming finalization after the loop (lines 620-637): the
last reply's content when truthy, otherwise the thrown
`No content in response after N tool call(s)` error (`none`). -/
def p3Finalize (res : P3Result) : Option String :=
  match res.last with
  | some r => if r.content = "" then none else some r.content
  | none => none

theorem p3Loop_invariant (registered : String → Bool)
    (execOut : Nat → ExecOutcome) (script : List ChatResp) :
    ∀ (st : P3State) (last : Option ChatResp),
      st.apiCalls = st.iter + st.skips → st.iter ≤ 5 →
      ((p3Loop registered execOut script st last).state.apiCalls =
          (p3Loop registered execOut script st last).state.iter +
          (p3Loop registered execOut script st last).state.skips ∧
        (p3Loop registered execOut script st last).state.iter ≤ 5 ∧
        st.apiCalls ≤ (p3Loop registered execOut script st last).state.apiCalls) := by
  induction script with
  | nil =>
    intro st last h1 h2
    unfold p3Loop
    by_cases h5 : 5 ≤ st.iter
    · rw [if_pos h5]
      exact ⟨h1, h2, Nat.le_refl _⟩
    · rw [if_neg h5]
      exact ⟨h1, h2, Nat.le_refl _⟩
  | cons r rest ih =>
    intro st last h1 h2
    have key : ∀ (S : P3State) (l : Option ChatResp),
        S.apiCalls = S.iter + S.skips → S.iter ≤ 5 →
        st.apiCalls ≤ S.apiCalls →
        ((p3Loop registered execOut rest S l).state.apiCalls =
            (p3Loop registered execOut rest S l).state.iter +
            (p3Loop registered execOut rest S l).state.skips ∧
          (p3Loop registered execOut rest S l).state.iter ≤ 5 ∧
          st.apiCalls ≤ (p3Loop registered execOut rest S l).state.apiCalls) := by
      intro S l hA hI hlow
      have h := ih S l hA hI
      exact ⟨h.1, h.2.1, Nat.le_trans hlow h.2.2⟩
    unfold p3Loop
    by_cases h5 : 5 ≤ st.iter
    · rw [if_pos h5]
      exact ⟨h1, h2, Nat.le_refl _⟩
    · rw [if_neg h5]
      rcases r with ⟨content, tcs⟩
      dsimp only
      rcases tcs with _ | ⟨tc, tcs⟩
      · refine ⟨?_, ?_, ?_⟩ <;> dsimp only <;> omega
      · dsimp only
        by_cases hskip : tc.name = webSearchName ∧ st.webDone = true
        · rw [if_pos hskip]
          exact key _ _ (by dsimp only; omega) (by dsimp only; omega)
            (by dsimp only; omega)
        · rw [if_neg hskip]
          by_cases hreg : registered tc.name = true
          · rw [if_pos hreg]
            cases hex : execOut st.execIdx with
            | threw m =>
              exact key _ _ (by dsimp only; omega) (by dsimp only; omega)
                (by dsimp only; omega)
            | ret res =>
              exact key _ _ (by dsimp only; omega) (by dsimp only; omega)
                (by dsimp only; omega)
          · rw [if_neg hreg]
            exact key _ _ (by dsimp only; omega) (by dsimp only; omega)
              (by dsimp only; omega)

theorem p3Loop_apiCalls_mono (registered : String → Bool)
    (execOut : Nat → ExecOutcome) (script : List ChatResp) :
    ∀ (st : P3State) (last : Option ChatResp),
      st.apiCalls ≤ (p3Loop registered execOut script st last).state.apiCalls := by
  induction script with
  | nil =>
    intro st last
    unfold p3Loop
    by_cases h5 : 5 ≤ st.iter
    · rw [if_pos h5]
    · rw [if_neg h5]
  | cons r rest ih =>
    intro st last
    have key : ∀ (S : P3State) (l : Option ChatResp),
        st.apiCalls + 1 ≤ S.apiCalls →
        st.apiCalls ≤ (p3Loop registered execOut rest S l).state.apiCalls :=
      fun S l h => Nat.le_trans (by omega) (ih S l)
    unfold p3Loop
    by_cases h5 : 5 ≤ st.iter
    · rw [if_pos h5]
    · rw [if_neg h5]
      rcases r with ⟨content, tcs⟩
      dsimp only
      rcases tcs with _ | ⟨tc, tcs⟩
      · dsimp only
        omega
      · dsimp only
        by_cases hskip : tc.name = webSearchName ∧ st.webDone = true
        · rw [if_pos hskip]
          exact key _ _ (by dsimp only; omega)
        · rw [if_neg hskip]
          by_cases hreg : registered tc.name = true
          · rw [if_pos hreg]
            cases hex : execOut st.execIdx with
            | threw m => exact key _ _ (by dsimp only; omega)
            | ret res => exact key _ _ (by dsimp only; omega)
          · rw [if_neg hreg]
            exact key _ _ (by dsimp only; omega)

/-- C1 as stated is false: a chained web-search call skipped because a
web search already succeeded does not count against the iteration cap,
but the model-transport call that produced it has already been made, so
the INCORPORATING loop can make more than 5 model calls. Concretely:
with `webSearchAlreadyPerformed` set by a phase-1 web search, a script
whose first reply requests the web search again (skipped) and whose
next five replies request the registered clock tool drives the loop
through 6 model calls — the counter ends at the cap 5 with 1 skip. -/
theorem phase3_six_model_calls_counterexample :
    (runPhase3 (fun n => n == "hubot_ollama_get_current_time")
        (fun _ => ExecOutcome.ret ⟨none, "timestamp"⟩) true []
        [⟨"", [⟨"hubot_ollama_web_search", ""⟩]⟩,
         ⟨"", [⟨"hubot_ollama_get_current_time", ""⟩]⟩,
         ⟨"", [⟨"hubot_ollama_get_current_time", ""⟩]⟩,
         ⟨"", [⟨"hubot_ollama_get_current_time", ""⟩]⟩,
         ⟨"", [⟨"hubot_ollama_get_current_time", ""⟩]⟩,
         ⟨"", [⟨"hubot_ollama_get_current_time", ""⟩]⟩]).state.apiCalls = 6 ∧
    (runPhase3 (fun n => n == "hubot_ollama_get_current_time")
        (fun _ => ExecOutcome.ret ⟨none, "timestamp"⟩) true []
        [⟨"", [⟨"hubot_ollama_web_search", ""⟩]⟩,
         ⟨"", [⟨"hubot_ollama_get_current_time", ""⟩]⟩,
         ⟨"", [⟨"hubot_ollama_get_current_time", ""⟩]⟩,
         ⟨"", [⟨"hubot_ollama_get_current_time", ""⟩]⟩,
         ⟨"", [⟨"hubot_ollama_get_current_time", ""⟩]⟩,
         ⟨"", [⟨"hubot_ollama_get_current_time", ""⟩]⟩]).state.skips = 1 ∧
    (runPhase3 (fun n => n == "hubot_ollama_get_current_time")
        (fun _ => ExecOutcome.ret ⟨none, "timestamp"⟩) true []
        [⟨"", [⟨"hubot_ollama_web_search", ""⟩]⟩,
         ⟨"", [⟨"hubot_ollama_get_current_time", ""⟩]⟩,
         ⟨"", [⟨"hubot_ollama_get_current_time", ""⟩]⟩,
         ⟨"", [⟨"hubot_ollama_get_current_time", ""⟩]⟩,
         ⟨"", [⟨"hubot_ollama_get_current_time", ""⟩]⟩,
         ⟨"", [⟨"hubot_ollama_get_current_time", ""⟩]⟩]).state.iter = 5 ∧
    ¬ (6 ≤ 5) := by
  exact ⟨by decide, by decide, by decide, by decide⟩

/-- C1 amended: the INCORPORATING loop performs at most 5 counted
iterations; its model-call count equals counted iterations plus skipped
duplicate web searches, so it is bounded by 5 only when no chained web
search is skipped — each skip adds one extra model call beyond the
cap. -/
theorem phase3_model_call_accounting (registered : String → Bool)
    (execOut : Nat → ExecOutcome) (webDone0 : Bool) (msgs0 : List LoopMsg)
    (script : List ChatResp) :
    (runPhase3 registered execOut webDone0 msgs0 script).state.iter ≤ 5 ∧
    (runPhase3 registered execOut webDone0 msgs0 script).state.apiCalls =
      (runPhase3 registered execOut webDone0 msgs0 script).state.iter +
      (runPhase3 registered execOut webDone0 msgs0 script).state.skips ∧
    ((runPhase3 registered execOut webDone0 msgs0 script).state.skips = 0 →
      (runPhase3 registered execOut webDone0 msgs0 script).state.apiCalls ≤ 5) := by
  unfold runPhase3
  obtain ⟨hA, hI, _⟩ := p3Loop_invariant registered execOut script
    ⟨msgs0, 0, webDone0, 0, 0, 0⟩ none rfl (Nat.zero_le 5)
  exact ⟨hI, hA, fun hs => by rw [hA, hs]; omega⟩

/-- Witness for the amended C1: a run answering directly on the first
loop call makes 1 model call, no skips. -/
theorem phase3_model_call_accounting_witness :
    (runPhase3 (fun _ => false) (fun _ => ExecOutcome.ret ⟨none, ""⟩)
        false [] [⟨"hi there", []⟩]).state.skips = 0 ∧
    (runPhase3 (fun _ => false) (fun _ => ExecOutcome.ret ⟨none, ""⟩)
        false [] [⟨"hi there", []⟩]).state.apiCalls ≤ 5 := by
  have h := phase3_model_call_accounting (fun _ => false)
    (fun _ => ExecOutcome.ret ⟨none, ""⟩) false [] [⟨"hi there", []⟩]
  exact ⟨by decide, h.2.2 (by decide)⟩

/-- C2 as stated is false: the loop keeps no consecutive-empty-result
counter and has no bail-out. Concretely: the first two replies request
the registered clock tool and both handler invocations throw — two
consecutive error (empty) results — yet the loop makes a third model
call and the run returns that reply's own text instead of transitioning
to a terminal bail-out with a fixed message after the second empty
result. -/
theorem phase3_two_empty_results_counterexample :
    (runPhase3 (fun n => n == "hubot_ollama_get_current_time")
        (fun _ => ExecOutcome.threw "ECONNREFUSED") false []
        [⟨"", [⟨"hubot_ollama_get_current_time", ""⟩]⟩,
         ⟨"", [⟨"hubot_ollama_get_current_time", ""⟩]⟩,
         ⟨"All good", []⟩]).state.apiCalls = 3 ∧
    (runPhase3 (fun n => n == "hubot_ollama_get_current_time")
        (fun _ => ExecOutcome.threw "ECONNREFUSED") false []
        [⟨"", [⟨"hubot_ollama_get_current_time", ""⟩]⟩,
         ⟨"", [⟨"hubot_ollama_get_current_time", ""⟩]⟩,
         ⟨"All good", []⟩]).exit = P3Exit.noToolCall ∧
    p3Finalize (runPhase3 (fun n => n == "hubot_ollama_get_current_time")
        (fun _ => ExecOutcome.threw "ECONNREFUSED") false []
        [⟨"", [⟨"hubot_ollama_get_current_time", ""⟩]⟩,
         ⟨"", [⟨"hubot_ollama_get_current_time", ""⟩]⟩,
         ⟨"All good", []⟩]) = some "All good" := by
  exact ⟨by decide, by decide, by decide⟩

/-- C2 amended: the loop state (mirroring the source's locals) carries
no consecutive-empty-result counter and the loop has no bail-out path:
the model-call count never decreases, and whenever the iteration cap is
not reached and the transport yields another reply, the loop makes that
next model call — regardless of how many empty or error tool results
preceded. Termination happens only through a reply without tool calls,
the 5-iteration cap, or the end of the scripted transport. -/
theorem phase3_no_empty_result_bailout (registered : String → Bool)
    (execOut : Nat → ExecOutcome) :
    (∀ (script : List ChatResp) (st : P3State) (last : Option ChatResp),
      st.apiCalls ≤ (p3Loop registered execOut script st last).state.apiCalls) ∧
    (∀ (r : ChatResp) (rest : List ChatResp) (st : P3State)
        (last : Option ChatResp), st.iter < 5 →
      st.apiCalls + 1 ≤
        (p3Loop registered execOut (r :: rest) st last).state.apiCalls) := by
  constructor
  · intro script st last
    exact p3Loop_apiCalls_mono registered execOut script st last
  · intro r rest st last hlt
    have key : ∀ (S : P3State) (l : Option ChatResp),
        st.apiCalls + 1 ≤ S.apiCalls →
        st.apiCalls + 1 ≤ (p3Loop registered execOut rest S l).state.apiCalls :=
      fun S l h =>
        Nat.le_trans h (p3Loop_apiCalls_mono registered execOut rest S l)
    unfold p3Loop
    rw [if_neg (by omega : ¬ 5 ≤ st.iter)]
    rcases r with ⟨content, tcs⟩
    dsimp only
    rcases tcs with _ | ⟨tc, tcs⟩
    · dsimp only
      omega
    · dsimp only
      by_cases hskip : tc.name = webSearchName ∧ st.webDone = true
      · rw [if_pos hskip]
        exact key _ _ (by dsimp only; omega)
      · rw [if_neg hskip]
        by_cases hreg : registered tc.name = true
        · rw [if_pos hreg]
          cases hex : execOut st.execIdx with
          | threw m => exact key _ _ (by dsimp only; omega)
          | ret res => exact key _ _ (by dsimp only; omega)
        · rw [if_neg hreg]
          exact key _ _ (by dsimp only; omega)

/-- Witness for the amended C2: at a concrete state below the cap with
one scripted reply remaining, the loop makes the next model call. -/
theorem phase3_no_empty_result_bailout_witness :
    (0 : Nat) + 1 ≤
      (p3Loop (fun _ => false) (fun _ => ExecOutcome.ret ⟨none, ""⟩)
        [⟨"next", []⟩] ⟨[], 0, false, 0, 0, 0⟩ none).state.apiCalls :=
  (phase3_no_empty_result_bailout (fun _ => false)
    (fun _ => ExecOutcome.ret ⟨none, ""⟩)).2 ⟨"next", []⟩ []
    ⟨[], 0, false, 0, 0, 0⟩ none (by decide)

end HubotOllama
